import Mathlib

/-!
Shallow embedding of the Fetcher library (src/Fetcher.ts): a thin HTTP
client over a platform fetch primitive.  Plain JavaScript records of
string headers are modelled as association lists with exact string keys,
JavaScript object spread as the function objSpread, the asynchronous and
exception-throwing pipeline as explicit state passing in the monad-like
type M sigma alpha, and the platform fetch as an explicit dispatch
function parameter.  Hooks carry a numeric id modelling JavaScript
reference identity, used by the remove operations - which in the source
compare hooks with reference equality.
-/

/-- Model of a parsed JSON value.  The pipeline treats parsed bodies as
unanalyzed data, so a flat value type suffices; null models the JavaScript
null produced when body parsing fails. -/
inductive JsonVal where
  | null : JsonVal
  | boolVal : Bool → JsonVal
  | numVal : Int → JsonVal
  | strVal : String → JsonVal
  | objVal : List (String × String) → JsonVal
deriving DecidableEq

/-- A JavaScript record of string-valued headers: an association list in
key insertion order, keys unique and compared by exact string equality. -/
abbrev HeaderMap := List (String × String)

/-- Property read on a JavaScript record: the value at key k, none when
the key is absent. -/
def getKey (m : HeaderMap) (k : String) : Option String :=
  (m.find? (fun p => p.1 == k)).map Prod.snd

/-- JavaScript object spread on records of strings: in a spread of a
then b, the result keeps the keys of a in order (each taking the value
from b when b also has that key) followed by the keys of b that are not
in a, in order.  Keys are exact strings, as in JavaScript objects. -/
def objSpread (a b : HeaderMap) : HeaderMap :=
  a.map (fun p =>
    match getKey b p.1 with
    | some v => (p.1, v)
    | none => p) ++
  b.filter (fun p => (getKey a p.1).isNone)

/-- The transport options record (the relevant fields of RequestInit). -/
structure RequestInit where
  method : Option String := none
  headers : HeaderMap := []
  body : Option String := none
deriving DecidableEq

/-- The platform response descriptor, with jsonResult modelling what the
json method yields: some value on success, none when parsing throws. -/
structure Response where
  ok : Bool
  status : Nat
  statusText : String
  headers : HeaderMap
  jsonResult : Option JsonVal
deriving DecidableEq

/-- The success envelope returned by every verb method. -/
structure FetcherResponse where
  data : JsonVal
  status : Nat
  headers : HeaderMap
deriving DecidableEq

/-- The structured error built from a non-ok response. -/
structure FetcherError where
  message : String
  status : Nat
  data : JsonVal
  headers : HeaderMap
deriving DecidableEq

/-- A JavaScript error value: either a FetcherError raised by the
pipeline, or any other platform error, identified by a tag. -/
inductive JSError where
  | fetcherError : FetcherError → JSError
  | native : String → JSError
deriving DecidableEq

/-- The plain record returned by parseError. -/
structure ParsedError where
  message : String
  status : Nat
  data : JsonVal
  headers : HeaderMap
deriving DecidableEq

/-- An asynchronous, possibly throwing computation over an ambient world
state sigma: explicit state passing with an Except result.  A thrown
error leaves the side effects performed so far in place. -/
abbrev M (σ α : Type) := σ → Except JSError α × σ

/-- A before-hook: receives the resolved url and the pending options,
may perform side effects on the world and return the mutated options;
the id models JavaScript reference identity of the registered closure. -/
structure BHook (σ : Type) where
  id : Nat
  fn : String → RequestInit → M σ RequestInit

/-- An after-hook: receives the raw response and the parsed body; the id
models JavaScript reference identity of the registered closure. -/
structure AHook (σ : Type) where
  id : Nat
  fn : Response → JsonVal → M σ Unit

/-- The client instance state: base url, default options and the two
ordered hook lists. -/
structure Fetcher (σ : Type) where
  baseUrl : String
  defaultOptions : RequestInit
  beforeHooks : List (BHook σ)
  afterHooks : List (AHook σ)

/-- The platform fetch capability consumed by the pipeline. -/
abbrev Dispatch (σ : Type) := String → RequestInit → M σ Response

def Fetcher.addBeforeHook {σ : Type} (f : Fetcher σ) (hook : BHook σ) : Fetcher σ :=
  { f with beforeHooks := f.beforeHooks ++ [hook] }

def Fetcher.addAfterHook {σ : Type} (f : Fetcher σ) (hook : AHook σ) : Fetcher σ :=
  { f with afterHooks := f.afterHooks ++ [hook] }

/-- removeBeforeHook: filter out every entry identity-equal to hook. -/
def Fetcher.removeBeforeHook {σ : Type} (f : Fetcher σ) (hook : BHook σ) : Fetcher σ :=
  { f with beforeHooks := f.beforeHooks.filter (fun h => h.id != hook.id) }

/-- removeAfterHook: filter out every entry identity-equal to hook. -/
def Fetcher.removeAfterHook {σ : Type} (f : Fetcher σ) (hook : AHook σ) : Fetcher σ :=
  { f with afterHooks := f.afterHooks.filter (fun h => h.id != hook.id) }

def Fetcher.clearHooks {σ : Type} (f : Fetcher σ) : Fetcher σ :=
  { f with beforeHooks := [], afterHooks := [] }

/-- res.json().catch(() => null): the parsed body, null on parse failure. -/
def parseBody (res : Response) : JsonVal :=
  res.jsonResult.getD JsonVal.null

/-- The headers record built before the hooks run: the injected default
Content-Type, spread with the instance default headers, spread with the
per-call headers. -/
def mergeHeaders (defaults perCall : HeaderMap) : HeaderMap :=
  objSpread (objSpread [("Content-Type", "application/json")] defaults) perCall

/-- mergedOptions before the hooks run: the spread of defaultOptions and
the per-call options, with the headers field then replaced by the
three-layer header merge. -/
def mergeInitial (d o : RequestInit) : RequestInit :=
  { method := match o.method with
      | some m => some m
      | none => d.method
  , body := match o.body with
      | some b => some b
      | none => d.body
  , headers := mergeHeaders d.headers o.headers }

/-- After all before-hooks ran: re-apply the per-call headers on top of
the (possibly hook-mutated) merged options. -/
def reapply (o1 options : RequestInit) : RequestInit :=
  { o1 with headers := objSpread o1.headers options.headers }

/-- Run the before-hooks sequentially, each awaited to completion,
threading the mutated options; a thrown error stops the loop. -/
def runBeforeHooks {σ : Type} (hooks : List (BHook σ)) (url : String)
    (o : RequestInit) : M σ RequestInit :=
  match hooks with
  | [] => fun s => (Except.ok o, s)
  | h :: t => fun s =>
    match h.fn url o s with
    | (Except.ok o2, s2) => runBeforeHooks t url o2 s2
    | (Except.error e, s2) => (Except.error e, s2)

/-- Run the after-hooks sequentially with the raw response and the
parsed body; a thrown error stops the loop. -/
def runAfterHooks {σ : Type} (hooks : List (AHook σ)) (res : Response)
    (data : JsonVal) : M σ Unit :=
  match hooks with
  | [] => fun s => (Except.ok (), s)
  | h :: t => fun s =>
    match h.fn res data s with
    | (Except.ok _, s2) => runAfterHooks t res data s2
    | (Except.error e, s2) => (Except.error e, s2)

/-- The request pipeline of Fetcher.request: build the url, merge the
option layers, run the before-hooks, re-apply the per-call headers,
dispatch, parse the body (null on failure), run the after-hooks, then
classify: a non-ok response throws a FetcherError, an ok response
returns the envelope.  The source wraps the body in a try block whose
catch clause rethrows the caught error unchanged, which is the identity
on outcomes. -/
def Fetcher.request {σ : Type} (f : Fetcher σ) (dispatch : Dispatch σ)
    (path : String) (options : RequestInit) : M σ FetcherResponse :=
  fun s =>
    match runBeforeHooks f.beforeHooks (f.baseUrl ++ path) (mergeInitial f.defaultOptions options) s with
    | (Except.error e, s1) => (Except.error e, s1)
    | (Except.ok o1, s1) =>
      match dispatch (f.baseUrl ++ path) (reapply o1 options) s1 with
      | (Except.error e, s2) => (Except.error e, s2)
      | (Except.ok res, s2) =>
        match runAfterHooks f.afterHooks res (parseBody res) s2 with
        | (Except.error e, s3) => (Except.error e, s3)
        | (Except.ok _, s3) =>
          if res.ok then
            (Except.ok { data := parseBody res, status := res.status, headers := res.headers }, s3)
          else
            (Except.error (JSError.fetcherError
              { message := res.statusText, status := res.status
              , data := parseBody res, headers := res.headers }), s3)

def Fetcher.get {σ : Type} (f : Fetcher σ) (dispatch : Dispatch σ)
    (path : String) (options : RequestInit) : M σ FetcherResponse :=
  f.request dispatch path { options with method := some "GET" }

def Fetcher.post {σ : Type} (f : Fetcher σ) (dispatch : Dispatch σ)
    (path : String) (options : RequestInit) : M σ FetcherResponse :=
  f.request dispatch path { options with method := some "POST" }

def Fetcher.put {σ : Type} (f : Fetcher σ) (dispatch : Dispatch σ)
    (path : String) (options : RequestInit) : M σ FetcherResponse :=
  f.request dispatch path { options with method := some "PUT" }

def Fetcher.delete {σ : Type} (f : Fetcher σ) (dispatch : Dispatch σ)
    (path : String) (options : RequestInit) : M σ FetcherResponse :=
  f.request dispatch path { options with method := some "DELETE" }

/-- parseError: a FetcherError is narrowed to the plain record of its
fields; anything else yields undefined. -/
def Fetcher.parseError (error : JSError) : Option ParsedError :=
  match error with
  | JSError.fetcherError e =>
    some { message := e.message, status := e.status, data := e.data, headers := e.headers }
  | JSError.native _ => none

/-! ### Lemmas about record reads and object spread -/

theorem getKey_nil (k : String) : getKey [] k = none := rfl

theorem getKey_cons (p : String × String) (ps : HeaderMap) (k : String) :
    getKey (p :: ps) k = if p.1 = k then some p.2 else getKey ps k := by
  by_cases h : p.1 = k
  · simp [getKey, h]
  · simp [getKey, h]

theorem getKey_append (xs ys : HeaderMap) (k : String) :
    getKey (xs ++ ys) k = (getKey xs k).or (getKey ys k) := by
  unfold getKey
  rw [List.find?_append]
  cases xs.find? (fun p => p.1 == k) <;> simp [Option.or]

theorem getKey_spreadMap (a b : HeaderMap) (k : String) :
    getKey (a.map (fun p =>
      match getKey b p.1 with
      | some v => (p.1, v)
      | none => p)) k
      = (getKey a k).map (fun w => (getKey b k).getD w) := by
  induction a with
  | nil => rfl
  | cons p ps ih =>
    by_cases h : p.1 = k
    · cases hb : getKey b p.1 <;>
        simp [List.map_cons, getKey_cons, h, hb, h ▸ hb]
    · cases hb : getKey b p.1 <;>
        simp [List.map_cons, getKey_cons, h, hb, ih]

theorem getKey_spreadFilter (a b : HeaderMap) (k : String) :
    getKey (b.filter (fun p => (getKey a p.1).isNone)) k
      = match getKey a k with
        | some _ => none
        | none => getKey b k := by
  induction b with
  | nil => cases getKey a k <;> rfl
  | cons q qs ih =>
    by_cases h : q.1 = k
    · cases ha : getKey a k
      · have hq : (getKey a q.1).isNone = true := by rw [h, ha]; rfl
        simp [List.filter_cons, hq, getKey_cons, h, ha]
      · have hq : (getKey a q.1).isNone = false := by rw [h, ha]; rfl
        rw [List.filter_cons, if_neg (by simp [hq]), ih, ha]
    · cases hq : (getKey a q.1).isNone
      · rw [List.filter_cons, if_neg (by simp [hq]), ih]
        cases ha : getKey a k
        · rw [getKey_cons, if_neg h]
        · rfl
      · rw [List.filter_cons, if_pos (by simp [hq]), getKey_cons, if_neg h, ih]
        cases ha : getKey a k
        · rw [getKey_cons, if_neg h]
        · rfl

/-- The read of a spread record: the right operand wins on exact key
collision, otherwise the left operand is read. -/
theorem getKey_objSpread (a b : HeaderMap) (k : String) :
    getKey (objSpread a b) k = (getKey b k).or (getKey a k) := by
  unfold objSpread
  rw [getKey_append, getKey_spreadMap, getKey_spreadFilter]
  cases hb : getKey b k <;> cases ha : getKey a k <;> simp [Option.or]

/-- The read of the three-layer initial header merge: per-call headers,
then instance defaults, then the injected Content-Type default. -/
theorem getKey_mergeHeaders (d o : HeaderMap) (k : String) :
    getKey (mergeHeaders d o) k =
      (getKey o k).or ((getKey d k).or
        (getKey [("Content-Type", "application/json")] k)) := by
  unfold mergeHeaders
  rw [getKey_objSpread, getKey_objSpread]

/-! ### Lemmas about hook execution -/

theorem runBeforeHooks_preserve {σ : Type} (Q : RequestInit → Prop)
    (hooks : List (BHook σ))
    (hh : ∀ h ∈ hooks, ∀ u o st o2 st2,
      h.fn u o st = (Except.ok o2, st2) → Q o → Q o2) :
    ∀ (u : String) (o : RequestInit) (st : σ) (o1 : RequestInit) (st1 : σ),
      runBeforeHooks hooks u o st = (Except.ok o1, st1) → Q o → Q o1 := by
  induction hooks with
  | nil =>
    intro u o st o1 st1 hrun hq
    unfold runBeforeHooks at hrun
    cases hrun
    exact hq
  | cons h t ih =>
    intro u o st o1 st1 hrun hq
    unfold runBeforeHooks at hrun
    cases hstep : h.fn u o st with
    | mk r s2 =>
      rw [hstep] at hrun
      cases r with
      | ok o2 =>
        exact ih (fun g hg => hh g (List.mem_cons_of_mem h hg)) u o2 s2 o1 st1 hrun
          (hh h (List.mem_cons_self h t) u o st o2 s2 hstep hq)
      | error e => cases hrun

theorem runBeforeHooks_total {σ : Type} (hooks : List (BHook σ))
    (hs : ∀ h ∈ hooks, ∀ u o st, ∃ o2 st2, h.fn u o st = (Except.ok o2, st2)) :
    ∀ (u : String) (o : RequestInit) (st : σ),
      ∃ o1 st1, runBeforeHooks hooks u o st = (Except.ok o1, st1) := by
  induction hooks with
  | nil => intro u o st; exact ⟨o, st, rfl⟩
  | cons h t ih =>
    intro u o st
    obtain ⟨o2, st2, hstep⟩ := hs h (List.mem_cons_self h t) u o st
    obtain ⟨o1, st1, hrun⟩ := ih (fun g hg => hs g (List.mem_cons_of_mem h hg)) u o2 st2
    refine ⟨o1, st1, ?_⟩
    unfold runBeforeHooks
    rw [hstep]
    exact hrun

theorem runAfterHooks_total {σ : Type} (hooks : List (AHook σ))
    (hs : ∀ h ∈ hooks, ∀ r dt st, ∃ st2, h.fn r dt st = (Except.ok (), st2)) :
    ∀ (r : Response) (dt : JsonVal) (st : σ),
      ∃ st1, runAfterHooks hooks r dt st = (Except.ok (), st1) := by
  induction hooks with
  | nil => intro r dt st; exact ⟨st, rfl⟩
  | cons h t ih =>
    intro r dt st
    obtain ⟨st2, hstep⟩ := hs h (List.mem_cons_self h t) r dt st
    obtain ⟨st1, hrun⟩ := ih (fun g hg => hs g (List.mem_cons_of_mem h hg)) r dt st2
    refine ⟨st1, ?_⟩
    unfold runAfterHooks
    rw [hstep]
    exact hrun

/-- The key invariance reading of the pipeline: when every successful
before-hook pass leads to re-applied options satisfying P, two dispatch
functions that agree on options satisfying P give the request the same
result.  This expresses that the pipeline consults dispatch only on the
merged, hook-mutated, per-call-re-applied options. -/
theorem request_dispatch_inv {σ : Type} (f : Fetcher σ) (path : String)
    (options : RequestInit) (s : σ) (P : RequestInit → Prop)
    (hP : ∀ o1 s1, runBeforeHooks f.beforeHooks (f.baseUrl ++ path)
        (mergeInitial f.defaultOptions options) s = (Except.ok o1, s1) →
        P (reapply o1 options))
    (d1 d2 : Dispatch σ)
    (hd : ∀ u o st, P o → d1 u o st = d2 u o st) :
    f.request d1 path options s = f.request d2 path options s := by
  unfold Fetcher.request
  cases hrun : runBeforeHooks f.beforeHooks (f.baseUrl ++ path)
      (mergeInitial f.defaultOptions options) s with
  | mk r s1 =>
    cases r with
    | error e => rfl
    | ok o1 =>
      dsimp only
      rw [hd (f.baseUrl ++ path) (reapply o1 options) s1 (hP o1 s1 hrun)]

theorem getKey_reapply (o1 options : RequestInit) (k : String) :
    getKey (reapply o1 options).headers k
      = (getKey options.headers k).or (getKey o1.headers k) :=
  getKey_objSpread o1.headers options.headers k

/-- A transport returning a fixed response, used to drive the pipeline
in concrete scenarios. -/
def constDispatch {σ : Type} (res : Response) : Dispatch σ :=
  fun _ _ s => (Except.ok res, s)

/-- A transport echoing the dispatched request headers back inside the
response descriptor, making the dispatched header set observable. -/
def echoDispatch : Dispatch Unit :=
  fun _ o s =>
    (Except.ok { ok := true, status := 200, statusText := "OK"
               , headers := o.headers, jsonResult := none }, s)

/-! ### Concrete instances used to instantiate hypotheses -/

def wResp : Response :=
  { ok := true, status := 200, statusText := "OK"
  , headers := [("x-served-by", "w")], jsonResult := some (JsonVal.strVal "payload") }

def wDispatch : Dispatch Unit := constDispatch wResp

/-- A before-hook that mutates the pending options: it overwrites the
X-Token and Content-Type headers. -/
def wHookHeaders : HeaderMap := [("X-Token", "hook-value"), ("Content-Type", "text/csv")]

def wHook : BHook Unit :=
  ⟨5, fun _ o s => (Except.ok { o with headers := objSpread o.headers wHookHeaders }, s)⟩

def wFetcher : Fetcher Unit :=
  { baseUrl := "https://test.com"
  , defaultOptions := { headers := [("X-Token", "default-value")] }
  , beforeHooks := [wHook], afterHooks := [] }

def wOptions : RequestInit := { headers := [("X-Token", "per-call")] }

def plainFetcher : Fetcher Unit :=
  { baseUrl := "https://test.com", defaultOptions := {}
  , beforeHooks := [], afterHooks := [] }

/-- C1: for every verb call whose per-call headers bind key k to v, the
options record the pipeline passes to the transport dispatch still binds
k to v: the per-call value overrides the instance defaults, the injected
Content-Type default and any mutation a before-hook made to that key,
because the per-call headers are re-applied after the hooks ran.  Stated
as dispatch invariance: two transports that agree on every options
record binding k to v are indistinguishable to the call. -/
theorem perCall_headers_override {σ : Type} (f : Fetcher σ) (path : String)
    (options : RequestInit) (s : σ) (k v : String)
    (hv : getKey options.headers k = some v)
    (d1 d2 : Dispatch σ)
    (hd : ∀ u o st, getKey o.headers k = some v → d1 u o st = d2 u o st) :
    f.get d1 path options s = f.get d2 path options s ∧
    f.post d1 path options s = f.post d2 path options s ∧
    f.put d1 path options s = f.put d2 path options s ∧
    f.delete d1 path options s = f.delete d2 path options s := by
  have key : ∀ m : String,
      f.request d1 path { options with method := some m } s
        = f.request d2 path { options with method := some m } s := by
    intro m
    refine request_dispatch_inv f path _ s
      (fun o => getKey o.headers k = some v) ?_ d1 d2 hd
    intro o1 s1 _
    rw [getKey_reapply]
    have hm : ({ options with method := some m } : RequestInit).headers
        = options.headers := rfl
    rw [hm, hv]
    rfl
  exact ⟨key "GET", key "POST", key "PUT", key "DELETE"⟩

theorem perCall_headers_override_witness :
    getKey wOptions.headers "X-Token" = some "per-call" ∧
    Fetcher.get wFetcher wDispatch "/x" wOptions ()
      = Fetcher.get wFetcher wDispatch "/x" wOptions () :=
  ⟨rfl, (perCall_headers_override wFetcher "/x" wOptions () "X-Token" "per-call" rfl
    wDispatch wDispatch (fun _ _ _ _ => rfl)).1⟩

/-- C10: when no before-hook modifies the method field, the options the
pipeline passes to dispatch carry the HTTP method of the verb itself, whatever
method value the per-call options or the instance defaults contain.
Stated as dispatch invariance for each of the four verb methods. -/
theorem verb_sets_method {σ : Type} (f : Fetcher σ) (path : String)
    (options : RequestInit) (s : σ)
    (hh : ∀ h ∈ f.beforeHooks, ∀ u o st o2 st2,
      h.fn u o st = (Except.ok o2, st2) → o2.method = o.method)
    (d1 d2 : Dispatch σ) :
    ((∀ u o st, o.method = some "GET" → d1 u o st = d2 u o st) →
      f.get d1 path options s = f.get d2 path options s) ∧
    ((∀ u o st, o.method = some "POST" → d1 u o st = d2 u o st) →
      f.post d1 path options s = f.post d2 path options s) ∧
    ((∀ u o st, o.method = some "PUT" → d1 u o st = d2 u o st) →
      f.put d1 path options s = f.put d2 path options s) ∧
    ((∀ u o st, o.method = some "DELETE" → d1 u o st = d2 u o st) →
      f.delete d1 path options s = f.delete d2 path options s) := by
  have key : ∀ m : String, (∀ u o st, o.method = some m → d1 u o st = d2 u o st) →
      f.request d1 path { options with method := some m } s
        = f.request d2 path { options with method := some m } s := by
    intro m hd
    refine request_dispatch_inv f path _ s (fun o => o.method = some m) ?_ d1 d2 hd
    intro o1 s1 hrun
    have h0 : (mergeInitial f.defaultOptions { options with method := some m }).method
        = some m := rfl
    have h1 : o1.method = some m :=
      runBeforeHooks_preserve (fun o => o.method = some m) f.beforeHooks
        (fun h hm u o st o2 st2 hstep hq => by
          show o2.method = some m
          rw [hh h hm u o st o2 st2 hstep]
          exact hq)
        (f.baseUrl ++ path) _ s o1 s1 hrun h0
    exact h1
  exact ⟨key "GET", key "POST", key "PUT", key "DELETE"⟩

theorem verb_sets_method_witness :
    Fetcher.get wFetcher wDispatch "/x" wOptions ()
      = Fetcher.get wFetcher wDispatch "/x" wOptions () :=
  (verb_sets_method wFetcher "/x" wOptions ()
    (by
      intro h hm u o st o2 st2 hstep
      have hw : h = wHook := by simpa [wFetcher] using hm
      subst hw
      have h2 : o2 = { o with headers := objSpread o.headers wHookHeaders } := by
        have := congrArg Prod.fst hstep
        simpa [wHook] using this.symm
      rw [h2])
    wDispatch wDispatch).1 (fun _ _ _ _ => rfl)

/-- C5: the Content-Type layering.  (a) When neither the instance
default headers, nor any before-hook, nor the per-call headers define
Content-Type, the dispatched options carry the injected default value
application/json.  (b) When the per-call headers define Content-Type,
its value is dispatched.  (c) When the per-call headers do not define
it, the re-applied options carry exactly the hook-layer output value for
Content-Type.  (d) When the instance defaults define it, the hooks
preserve it and the per-call headers do not define it, the default value
is dispatched.  Cases with an explicit winner are stated as dispatch
invariance. -/
theorem contentType_layering {σ : Type} (f : Fetcher σ) (path : String)
    (options : RequestInit) (s : σ) (d1 d2 : Dispatch σ) :
    ((getKey f.defaultOptions.headers "Content-Type" = none) →
     (getKey options.headers "Content-Type" = none) →
     (∀ h ∈ f.beforeHooks, ∀ u o st o2 st2, h.fn u o st = (Except.ok o2, st2) →
        getKey o2.headers "Content-Type" = getKey o.headers "Content-Type") →
     (∀ u o st, getKey o.headers "Content-Type" = some "application/json" →
        d1 u o st = d2 u o st) →
     f.request d1 path options s = f.request d2 path options s) ∧
    (∀ v : String, getKey options.headers "Content-Type" = some v →
     (∀ u o st, getKey o.headers "Content-Type" = some v → d1 u o st = d2 u o st) →
     f.request d1 path options s = f.request d2 path options s) ∧
    ((getKey options.headers "Content-Type" = none) →
     ∀ o1 s1, runBeforeHooks f.beforeHooks (f.baseUrl ++ path)
        (mergeInitial f.defaultOptions options) s = (Except.ok o1, s1) →
       getKey (reapply o1 options).headers "Content-Type"
         = getKey o1.headers "Content-Type") ∧
    (∀ v : String, getKey f.defaultOptions.headers "Content-Type" = some v →
     (getKey options.headers "Content-Type" = none) →
     (∀ h ∈ f.beforeHooks, ∀ u o st o2 st2, h.fn u o st = (Except.ok o2, st2) →
        getKey o2.headers "Content-Type" = getKey o.headers "Content-Type") →
     (∀ u o st, getKey o.headers "Content-Type" = some v → d1 u o st = d2 u o st) →
     f.request d1 path options s = f.request d2 path options s) := by
  have hmerge : ∀ w : Option String,
      (getKey options.headers "Content-Type" = none) →
      (getKey f.defaultOptions.headers "Content-Type" = w) →
      getKey (mergeInitial f.defaultOptions options).headers "Content-Type"
        = w.or (some "application/json") := by
    intro w hpc hdf
    have : (mergeInitial f.defaultOptions options).headers
        = mergeHeaders f.defaultOptions.headers options.headers := rfl
    rw [this, getKey_mergeHeaders, hpc, hdf]
    cases w <;> rfl
  have hpres : ∀ w : Option String,
      (∀ h ∈ f.beforeHooks, ∀ u o st o2 st2, h.fn u o st = (Except.ok o2, st2) →
        getKey o2.headers "Content-Type" = getKey o.headers "Content-Type") →
      ∀ o1 s1, runBeforeHooks f.beforeHooks (f.baseUrl ++ path)
          (mergeInitial f.defaultOptions options) s = (Except.ok o1, s1) →
        getKey (mergeInitial f.defaultOptions options).headers "Content-Type" = w →
        getKey o1.headers "Content-Type" = w := by
    intro w hh o1 s1 hrun h0
    exact runBeforeHooks_preserve
      (fun o => getKey o.headers "Content-Type" = w) f.beforeHooks
      (fun h hm u o st o2 st2 hstep hq => by
        show getKey o2.headers "Content-Type" = w
        rw [hh h hm u o st o2 st2 hstep]
        exact hq)
      (f.baseUrl ++ path) _ s o1 s1 hrun h0
  refine ⟨?_, ?_, ?_, ?_⟩
  · intro hdf hpc hh hd
    refine request_dispatch_inv f path _ s
      (fun o => getKey o.headers "Content-Type" = some "application/json") ?_ d1 d2 hd
    intro o1 s1 hrun
    rw [getKey_reapply, hpc]
    have h1 := hpres (some "application/json") hh o1 s1 hrun
      (hmerge none hpc hdf)
    rw [h1]
    rfl
  · intro v hpc hd
    refine request_dispatch_inv f path _ s
      (fun o => getKey o.headers "Content-Type" = some v) ?_ d1 d2 hd
    intro o1 s1 _
    rw [getKey_reapply, hpc]
    rfl
  · intro hpc o1 s1 _
    rw [getKey_reapply, hpc]
    rfl
  · intro v hdf hpc hh hd
    refine request_dispatch_inv f path _ s
      (fun o => getKey o.headers "Content-Type" = some v) ?_ d1 d2 hd
    intro o1 s1 hrun
    rw [getKey_reapply, hpc]
    have h1 := hpres (some v) hh o1 s1 hrun (hmerge (some v) hpc hdf)
    rw [h1]
    rfl

def wCTOptions : RequestInit := { headers := [("Content-Type", "text/plain")] }

theorem contentType_layering_witness :
    getKey wCTOptions.headers "Content-Type" = some "text/plain" ∧
    Fetcher.request wFetcher echoDispatch "/x" wCTOptions ()
      = Fetcher.request wFetcher echoDispatch "/x" wCTOptions () :=
  ⟨rfl, (contentType_layering wFetcher "/x" wCTOptions () echoDispatch echoDispatch).2.1
    "text/plain" rfl (fun _ _ _ _ => rfl)⟩

/-- C2: a dispatched response with ok false makes the call throw a
FetcherError whose message is the statusText, status the numeric code,
data the parsed body and headers the response headers; an ok response
makes it return the envelope of parsed body, status and headers; and
parseError on a FetcherError returns the plain record of its fields. -/
theorem response_classification {σ : Type} (f : Fetcher σ) (path : String)
    (options : RequestInit) (s : σ) (res : Response)
    (hbs : ∀ h ∈ f.beforeHooks, ∀ u o st, ∃ o2 st2, h.fn u o st = (Except.ok o2, st2))
    (has : ∀ h ∈ f.afterHooks, ∀ r dt st, ∃ st2, h.fn r dt st = (Except.ok (), st2)) :
    (res.ok = false → ∃ s3, f.request (constDispatch res) path options s =
      (Except.error (JSError.fetcherError
        { message := res.statusText, status := res.status
        , data := parseBody res, headers := res.headers }), s3)) ∧
    (res.ok = true → ∃ s3, f.request (constDispatch res) path options s =
      (Except.ok { data := parseBody res, status := res.status
                 , headers := res.headers }, s3)) ∧
    (∀ e : FetcherError, Fetcher.parseError (JSError.fetcherError e) =
      some { message := e.message, status := e.status
           , data := e.data, headers := e.headers }) := by
  obtain ⟨o1, s1, hrun⟩ := runBeforeHooks_total f.beforeHooks hbs
    (f.baseUrl ++ path) (mergeInitial f.defaultOptions options) s
  obtain ⟨s3, hafter⟩ := runAfterHooks_total f.afterHooks has res (parseBody res) s1
  have hreq : f.request (constDispatch res) path options s =
      (if res.ok then
        (Except.ok { data := parseBody res, status := res.status, headers := res.headers }, s3)
      else
        (Except.error (JSError.fetcherError
          { message := res.statusText, status := res.status
          , data := parseBody res, headers := res.headers }), s3)) := by
    unfold Fetcher.request
    rw [hrun]
    dsimp only [constDispatch]
    rw [hafter]
  refine ⟨?_, ?_, fun e => rfl⟩
  · intro hok
    exact ⟨s3, by rw [hreq, hok]; rfl⟩
  · intro hok
    exact ⟨s3, by rw [hreq, hok]; rfl⟩

def notFoundResp : Response :=
  { ok := false, status := 404, statusText := "Not Found"
  , headers := [("x-err", "1")], jsonResult := some (JsonVal.strVal "missing") }

theorem response_classification_witness :
    notFoundResp.ok = false ∧
    (∃ s3, Fetcher.request wFetcher (constDispatch notFoundResp) "/x" wOptions () =
      (Except.error (JSError.fetcherError
        { message := "Not Found", status := 404
        , data := JsonVal.strVal "missing", headers := [("x-err", "1")] }), s3)) :=
  ⟨rfl,
    (response_classification wFetcher "/x" wOptions () notFoundResp
      (by
        intro h hm u o st
        have hw : h = wHook := by simpa [wFetcher] using hm
        subst hw
        exact ⟨_, st, rfl⟩)
      (by
        intro h hm
        exact absurd hm (by simp [wFetcher]))).1 rfl⟩

/-- C3: an error thrown by a before-hook, by the transport dispatch, or
by an after-hook propagates to the caller unmodified, never wrapped in a
FetcherError; and parseError applied to a non-FetcherError returns
undefined.  The parse of the body is handled separately and never raises
(theorem parse_failure_null_success). -/
theorem nonFetcherError_propagation {σ : Type} (f : Fetcher σ) (d : Dispatch σ)
    (path : String) (options : RequestInit) (s : σ) (e : JSError)
    (o1 : RequestInit) (s1 : σ) :
    (runBeforeHooks f.beforeHooks (f.baseUrl ++ path)
        (mergeInitial f.defaultOptions options) s = (Except.error e, s1) →
      f.request d path options s = (Except.error e, s1)) ∧
    (runBeforeHooks f.beforeHooks (f.baseUrl ++ path)
        (mergeInitial f.defaultOptions options) s = (Except.ok o1, s1) →
      f.request (fun _ _ st => (Except.error e, st)) path options s = (Except.error e, s1)) ∧
    (runBeforeHooks f.beforeHooks (f.baseUrl ++ path)
        (mergeInitial f.defaultOptions options) s = (Except.ok o1, s1) →
      ∀ (res : Response) (s3 : σ),
        runAfterHooks f.afterHooks res (parseBody res) s1 = (Except.error e, s3) →
        f.request (constDispatch res) path options s = (Except.error e, s3)) ∧
    (∀ t : String, Fetcher.parseError (JSError.native t) = none) := by
  refine ⟨?_, ?_, ?_, fun t => rfl⟩
  · intro hrun
    unfold Fetcher.request
    rw [hrun]
  · intro hrun
    unfold Fetcher.request
    rw [hrun]
  · intro hrun res s3 hafter
    unfold Fetcher.request
    rw [hrun]
    dsimp only [constDispatch]
    rw [hafter]

theorem nonFetcherError_propagation_witness :
    Fetcher.request plainFetcher
      (fun _ _ st => (Except.error (JSError.native "ECONNREFUSED"), st)) "/x" {} ()
      = (Except.error (JSError.native "ECONNREFUSED"), ()) :=
  (nonFetcherError_propagation plainFetcher wDispatch "/x" {} ()
    (JSError.native "ECONNREFUSED")
    (mergeInitial plainFetcher.defaultOptions {}) ()).2.1 rfl

/-- C4: an ok response whose body fails to parse yields a success
envelope with data null; the parse failure is never raised. -/
theorem parse_failure_null_success {σ : Type} (f : Fetcher σ) (path : String)
    (options : RequestInit) (s : σ) (res : Response)
    (hok : res.ok = true) (hjson : res.jsonResult = none)
    (hbs : ∀ h ∈ f.beforeHooks, ∀ u o st, ∃ o2 st2, h.fn u o st = (Except.ok o2, st2))
    (has : ∀ h ∈ f.afterHooks, ∀ r dt st, ∃ st2, h.fn r dt st = (Except.ok (), st2)) :
    ∃ s3, f.request (constDispatch res) path options s =
      (Except.ok { data := JsonVal.null, status := res.status
                 , headers := res.headers }, s3) := by
  obtain ⟨o1, s1, hrun⟩ := runBeforeHooks_total f.beforeHooks hbs
    (f.baseUrl ++ path) (mergeInitial f.defaultOptions options) s
  obtain ⟨s3, hafter⟩ := runAfterHooks_total f.afterHooks has res (parseBody res) s1
  refine ⟨s3, ?_⟩
  unfold Fetcher.request
  rw [hrun]
  dsimp only [constDispatch]
  rw [hafter]
  have hdata : parseBody res = JsonVal.null := by rw [parseBody, hjson]; rfl
  rw [hok, hdata]
  rfl

def emptyBodyResp : Response :=
  { ok := true, status := 204, statusText := "No Content"
  , headers := [("x-empty", "yes")], jsonResult := none }

theorem parse_failure_null_success_witness :
    emptyBodyResp.ok = true ∧ emptyBodyResp.jsonResult = none ∧
    (∃ s3, Fetcher.request plainFetcher (constDispatch emptyBodyResp) "/x" {} () =
      (Except.ok { data := JsonVal.null, status := 204
                 , headers := [("x-empty", "yes")] }, s3)) :=
  ⟨rfl, rfl,
    parse_failure_null_success plainFetcher "/x" {} () emptyBodyResp rfl rfl
      (by intro h hm; exact absurd hm (by simp [plainFetcher]))
      (by intro h hm; exact absurd hm (by simp [plainFetcher]))⟩

/-- ASCII case folding of a header key, used only to state
case-insensitive key agreement. -/
def asciiLowerChar (c : Char) : Char :=
  if 65 ≤ c.toNat ∧ c.toNat ≤ 90 then Char.ofNat (c.toNat + 32) else c

def keyCaseFold (s : String) : List Char := s.data.map asciiLowerChar

theorem objSpread_nil_right (a : HeaderMap) : objSpread a [] = a := by
  unfold objSpread
  simp [getKey_nil]

def cexFetcher : Fetcher Unit :=
  { baseUrl := "", defaultOptions := { headers := [("content-type", "text/plain")] }
  , beforeHooks := [], afterHooks := [] }

/-- C6 counterexample: with the instance default headers spelling the
key content-type in lower case next to the injected Content-Type
default, the dispatched header set contains two entries whose keys agree
case-insensitively, each with its own value: the merge compares keys
case-sensitively and does not collapse case-variant spellings into one
entry holding the last written value. -/
theorem headerMerge_not_caseInsensitive_cex :
    (Fetcher.get cexFetcher echoDispatch "/x" {} ()).1
      = Except.ok (FetcherResponse.mk JsonVal.null 200
          [("Content-Type", "application/json"), ("content-type", "text/plain")]) ∧
    ([("Content-Type", "application/json"), ("content-type", "text/plain")].filter
        (fun p => keyCaseFold p.1 == keyCaseFold "Content-Type")).length = 2 := by
  constructor
  · rfl
  · decide

/-- C6 amended: header keys are compared by exact, case-sensitive string
equality in the merge.  On an exact key collision the highest-precedence
layer wins - per-call headers over instance defaults over the injected
Content-Type default - while a layer that spells the same header name in
a different letter case contributes a separate entry instead of
overriding it. -/
theorem headerMerge_exact_key (d o : HeaderMap) (k k1 v1 : String)
    (hk1 : k1 ≠ "Content-Type") :
    (getKey (mergeHeaders d o) k
      = (getKey o k).or ((getKey d k).or
          (getKey [("Content-Type", "application/json")] k))) ∧
    mergeHeaders [(k1, v1)] [] = [("Content-Type", "application/json"), (k1, v1)] := by
  refine ⟨getKey_mergeHeaders d o k, ?_⟩
  have h1 : getKey [(k1, v1)] "Content-Type" = none := by
    rw [getKey_cons, if_neg hk1]
    rfl
  have h2 : getKey [("Content-Type", "application/json")] k1 = none := by
    rw [getKey_cons, if_neg (by exact fun h => hk1 h.symm)]
    rfl
  have inner : objSpread [("Content-Type", "application/json")] [(k1, v1)]
      = [("Content-Type", "application/json"), (k1, v1)] := by
    unfold objSpread
    simp only [List.map_cons, List.map_nil, List.filter_cons, List.filter_nil, h1, h2,
      Option.isNone_none, if_true, List.cons_append, List.nil_append]
  unfold mergeHeaders
  rw [inner, objSpread_nil_right]

theorem headerMerge_exact_key_witness :
    ("content-type" ≠ "Content-Type") ∧
    mergeHeaders [("content-type", "text/plain")] []
      = [("Content-Type", "application/json"), ("content-type", "text/plain")] :=
  ⟨by decide, (headerMerge_exact_key [] [] "x" "content-type" "text/plain" (by decide)).2⟩

def boomAfterHook : AHook Unit :=
  ⟨0, fun _ _ s => (Except.error (JSError.native "boom"), s)⟩

def okJsonResp : Response :=
  { ok := true, status := 200, statusText := "OK"
  , headers := [], jsonResult := some (JsonVal.strVal "body") }

def boomFetcher : Fetcher Unit :=
  { baseUrl := "", defaultOptions := {}
  , beforeHooks := [], afterHooks := [boomAfterHook] }

def noHookFetcher : Fetcher Unit :=
  { baseUrl := "", defaultOptions := {}
  , beforeHooks := [], afterHooks := [] }

/-- C7 counterexample: with a registered after-hook that throws, the
call on an ok response yields the hook error, while the identical call
with no after-hooks yields the success envelope: an after-hook can abort
the pipeline and change the call outcome, so running the after-hooks is
not outcome-preserving for every list of after-hooks. -/
theorem afterHook_throw_changes_outcome_cex :
    (Fetcher.request boomFetcher (constDispatch okJsonResp) "/x" {} ()).1
      = Except.error (JSError.native "boom") ∧
    (Fetcher.request noHookFetcher (constDispatch okJsonResp) "/x" {} ()).1
      = Except.ok (FetcherResponse.mk (JsonVal.strVal "body") 200 []) ∧
    (Except.error (JSError.native "boom")
      ≠ (Except.ok (FetcherResponse.mk (JsonVal.strVal "body") 200 [])
          : Except JSError FetcherResponse)) :=
  ⟨rfl, rfl, fun h => Except.noConfusion h⟩

/-- C7 amended: after-hooks that complete without throwing cannot alter
the call outcome - the value returned or thrown equals that of the same
call with no after-hooks registered, and classification still occurs -
but an after-hook that throws aborts the pipeline before classification
and its error propagates to the caller. -/
theorem afterHooks_outcome {σ : Type} (f : Fetcher σ) (d : Dispatch σ)
    (path : String) (options : RequestInit) (s : σ) :
    ((∀ h ∈ f.afterHooks, ∀ r dt st, ∃ st2, h.fn r dt st = (Except.ok (), st2)) →
      (f.request d path options s).1
        = (Fetcher.request { f with afterHooks := [] } d path options s).1) ∧
    (∀ (res : Response) (o1 : RequestInit) (s1 s3 : σ) (e : JSError),
      runBeforeHooks f.beforeHooks (f.baseUrl ++ path)
        (mergeInitial f.defaultOptions options) s = (Except.ok o1, s1) →
      runAfterHooks f.afterHooks res (parseBody res) s1 = (Except.error e, s3) →
      f.request (constDispatch res) path options s = (Except.error e, s3)) := by
  constructor
  · intro has
    unfold Fetcher.request
    dsimp only
    cases hrun : runBeforeHooks f.beforeHooks (f.baseUrl ++ path)
        (mergeInitial f.defaultOptions options) s with
    | mk r s1 =>
      cases r with
      | error e => rfl
      | ok o1 =>
        dsimp only
        cases hdisp : d (f.baseUrl ++ path) (reapply o1 options) s1 with
        | mk r2 s2 =>
          cases r2 with
          | error e => rfl
          | ok res =>
            dsimp only
            obtain ⟨s3, hafter⟩ := runAfterHooks_total f.afterHooks has res (parseBody res) s2
            rw [hafter]
            dsimp only [runAfterHooks]
            cases res.ok <;> rfl
  · intro res o1 s1 s3 e hrun hafter
    unfold Fetcher.request
    rw [hrun]
    dsimp only [constDispatch]
    rw [hafter]

def logAfterHook : AHook Unit := ⟨3, fun _ _ s => (Except.ok (), s)⟩

def logFetcher : Fetcher Unit :=
  { baseUrl := "", defaultOptions := {}
  , beforeHooks := [], afterHooks := [logAfterHook] }

theorem afterHooks_outcome_witness :
    (Fetcher.request logFetcher wDispatch "/x" {} ()).1
      = (Fetcher.request { logFetcher with afterHooks := [] } wDispatch "/x" {} ()).1 :=
  (afterHooks_outcome logFetcher wDispatch "/x" {} ()).1
    (by
      intro h hm r dt st
      have hw : h = logAfterHook := by simpa [logFetcher] using hm
      subst hw
      exact ⟨st, rfl⟩)

/-- An after-hook that only records its invocation: it appends its own
id together with the body value it was given to the world state. -/
def obsAfterHook (i : Nat) : AHook (List (Nat × JsonVal)) :=
  ⟨i, fun _ dt s => (Except.ok (), s ++ [(i, dt)])⟩

theorem runAfterHooks_obs (ids : List Nat) (res : Response) (dt : JsonVal)
    (s : List (Nat × JsonVal)) :
    runAfterHooks (ids.map obsAfterHook) res dt s
      = (Except.ok (), s ++ ids.map (fun i => (i, dt))) := by
  induction ids generalizing s with
  | nil => simp [runAfterHooks]
  | cons i t ih => simp [runAfterHooks, obsAfterHook, ih]

/-- C8: with any list of recording after-hooks registered, a call whose
transport returns res leaves as its invocation trace exactly the
registered ids once each, in registration order, each paired with the
parsed body - whatever the success flag of res, so the hooks also run on
a protocol failure, before classification; and the body value every hook
observed is the very value the call returns in the envelope on success
and carries in the thrown FetcherError on failure. -/
theorem afterHooks_once_ordered_data (ids : List Nat) (res : Response)
    (baseUrl path : String) (defaults options : RequestInit) :
    ((Fetcher.request ⟨baseUrl, defaults, [], ids.map obsAfterHook⟩
        (constDispatch res) path options []).2
      = ids.map (fun i => (i, parseBody res))) ∧
    (res.ok = true →
      (Fetcher.request ⟨baseUrl, defaults, [], ids.map obsAfterHook⟩
          (constDispatch res) path options []).1
        = Except.ok { data := parseBody res, status := res.status
                    , headers := res.headers }) ∧
    (res.ok = false →
      (Fetcher.request ⟨baseUrl, defaults, [], ids.map obsAfterHook⟩
          (constDispatch res) path options []).1
        = Except.error (JSError.fetcherError
            { message := res.statusText, status := res.status
            , data := parseBody res, headers := res.headers })) := by
  have hreq : Fetcher.request ⟨baseUrl, defaults, [], ids.map obsAfterHook⟩
      (constDispatch res) path options [] =
      (if res.ok then
        (Except.ok { data := parseBody res, status := res.status, headers := res.headers }
        , ids.map (fun i => (i, parseBody res)))
      else
        (Except.error (JSError.fetcherError
          { message := res.statusText, status := res.status
          , data := parseBody res, headers := res.headers })
        , ids.map (fun i => (i, parseBody res)))) := by
    unfold Fetcher.request
    dsimp only [runBeforeHooks, constDispatch]
    rw [runAfterHooks_obs]
    dsimp only
    rw [List.nil_append]
  refine ⟨?_, ?_, ?_⟩
  · rw [hreq]
    cases res.ok <;> rfl
  · intro hok
    rw [hreq, hok]
    rfl
  · intro hok
    rw [hreq, hok]
    rfl

theorem afterHooks_once_ordered_data_witness :
    okJsonResp.ok = true ∧
    (Fetcher.request ⟨"", {}, [], [4, 2].map obsAfterHook⟩
        (constDispatch okJsonResp) "/x" {} []).1
      = Except.ok (FetcherResponse.mk (JsonVal.strVal "body") 200 []) :=
  ⟨rfl, (afterHooks_once_ordered_data [4, 2] okJsonResp "" "/x" {} {}).2.1 rfl⟩

/-- A before-hook that only records its invocation: it appends its own
id to the world state and leaves the options unchanged. -/
def obsBeforeHook (i : Nat) : BHook (List Nat) :=
  ⟨i, fun _ o s => (Except.ok o, s ++ [i])⟩

theorem runBeforeHooks_obs (ids : List Nat) (u : String) (o : RequestInit)
    (s : List Nat) :
    runBeforeHooks (ids.map obsBeforeHook) u o s = (Except.ok o, s ++ ids) := by
  induction ids generalizing s with
  | nil => simp [runBeforeHooks]
  | cons i t ih => simp [runBeforeHooks, obsBeforeHook, ih]

def obsFetcher (ids : List Nat) : Fetcher (List Nat) :=
  { baseUrl := "", defaultOptions := {}
  , beforeHooks := ids.map obsBeforeHook, afterHooks := [] }

theorem request_obsFetcher_trace (ids : List Nat) (res : Response)
    (path : String) (options : RequestInit) :
    (Fetcher.request (obsFetcher ids) (constDispatch res) path options []).2 = ids := by
  unfold Fetcher.request obsFetcher
  dsimp only [constDispatch]
  rw [runBeforeHooks_obs]
  dsimp only [runAfterHooks]
  cases res.ok <;> simp

/-- C9: before-hooks execute strictly in registration order, each
awaited to completion before the next - the invocation trace of a call
equals the registered id list; removeBeforeHook removes all entries
identity-equal to the given hook and returns the instance, is a no-op
(not an error) when the hook is absent, and a removed hook is never
invoked by a subsequent call; removeAfterHook behaves the same way on
the after-hook list. -/
theorem beforeHooks_order_and_removal (ids : List Nat) (j : Nat) (res : Response)
    (path : String) (options : RequestInit) :
    ((Fetcher.request (obsFetcher ids) (constDispatch res) path options []).2 = ids) ∧
    (Fetcher.removeBeforeHook (obsFetcher ids) (obsBeforeHook j)
      = obsFetcher (ids.filter (fun i => i != j))) ∧
    (j ∉ ids → Fetcher.removeBeforeHook (obsFetcher ids) (obsBeforeHook j)
      = obsFetcher ids) ∧
    ((Fetcher.request (Fetcher.removeBeforeHook (obsFetcher ids) (obsBeforeHook j))
        (constDispatch res) path options []).2 = ids.filter (fun i => i != j)) ∧
    (∀ x ∈ (Fetcher.request (Fetcher.removeBeforeHook (obsFetcher ids) (obsBeforeHook j))
        (constDispatch res) path options []).2, x ≠ j) ∧
    (Fetcher.removeAfterHook (Fetcher.mk "" {} [] (ids.map obsAfterHook)) (obsAfterHook j)
      = Fetcher.mk "" {} [] ((ids.filter (fun i => i != j)).map obsAfterHook)) ∧
    (j ∉ ids →
      Fetcher.removeAfterHook (Fetcher.mk "" {} [] (ids.map obsAfterHook)) (obsAfterHook j)
        = Fetcher.mk "" {} [] (ids.map obsAfterHook)) := by
  have hself : j ∉ ids → ids.filter (fun i => i != j) = ids := by
    intro hj
    apply List.filter_eq_self.mpr
    intro a ha
    simp only [bne_iff_ne, ne_eq]
    intro h
    exact hj (h ▸ ha)
  have hfB : Fetcher.removeBeforeHook (obsFetcher ids) (obsBeforeHook j)
      = obsFetcher (ids.filter (fun i => i != j)) := by
    dsimp only [Fetcher.removeBeforeHook, obsFetcher]
    rw [List.filter_map]
    rfl
  have hfA : Fetcher.removeAfterHook (Fetcher.mk "" {} [] (ids.map obsAfterHook)) (obsAfterHook j)
      = Fetcher.mk "" {} [] ((ids.filter (fun i => i != j)).map obsAfterHook) := by
    dsimp only [Fetcher.removeAfterHook]
    rw [List.filter_map]
    rfl
  refine ⟨request_obsFetcher_trace ids res path options, hfB, ?_, ?_, ?_, hfA, ?_⟩
  · intro hj
    rw [hfB, hself hj]
  · rw [hfB]
    exact request_obsFetcher_trace _ res path options
  · intro x hx
    rw [hfB, request_obsFetcher_trace _ res path options] at hx
    have := (List.mem_filter.mp hx).2
    simpa [bne_iff_ne] using this
  · intro hj
    rw [hfA, hself hj]

theorem beforeHooks_order_and_removal_witness :
    ((3 : Nat) ∉ [1, 2, 1]) ∧
    Fetcher.removeBeforeHook (obsFetcher [1, 2, 1]) (obsBeforeHook 3)
      = obsFetcher [1, 2, 1] :=
  ⟨by decide,
    (beforeHooks_order_and_removal [1, 2, 1] 3 okJsonResp "/x" {}).2.2.1 (by decide)⟩
